import Mathlib

/-!
Shallow embedding of the `urlshortener` Go repository: the short-code
allocation service (`services.LinkService`), the GORM-backed link and click
repositories, the redirect handler's non-blocking click-event channel, and
the click worker pool, together with theorems settling the frozen claims.
-/

set_option maxHeartbeats 1000000

namespace UrlShortener

/-- Go `error` values as they appear in this program: `gorm.ErrRecordNotFound`,
`errors.New(s)`, `fmt.Errorf("msg: %w", inner)` wrapping, the typed
`customerrors.ErrMaxRetriesExceeded{MaxRetries, Operation}`, and driver-level
database errors (e.g. SQLite "UNIQUE constraint failed"). -/
inductive GoError where
  | recordNotFound : GoError
  | errString (s : String) : GoError
  | wrapped (msg : String) (inner : GoError) : GoError
  | maxRetriesExceeded (maxRetries : Nat) (operation : String) : GoError
  | dbError (s : String) : GoError
deriving DecidableEq, Repr

/-- Model of `errors.Is(err, target)`: walks the `%w` unwrap chain looking for `target`. -/
def errorsIs : GoError → GoError → Bool
  | e@(.wrapped _ inner), target => e == target || errorsIs inner target
  | e, target => e == target

/-- Embeds `models.Link` (GORM model): auto-increment `ID`, unique `ShortCode`,
`LongURL`, `CreatedAt` (time modelled as a `Nat` tick). -/
structure Link where
  id : Nat
  shortCode : String
  longURL : String
  createdAt : Nat
deriving DecidableEq, Repr

/-- Embeds `repository.LinkRepository` — the Go interface the service is written
against, as explicit state-passing functions. `σ` is the backing store's
state; concurrency with other requests shows up as the behaviour an
implementation may exhibit between calls. `createLink` returns the stored
link (GORM fills in `link.ID` on the caller's struct). -/
structure LinkRepository (σ : Type) where
  getLinkByShortCode : σ → String → Except GoError Link × σ
  createLink : σ → Link → Except GoError Link × σ

/-- Embeds `services.charset`: the fixed alphanumeric alphabet for short codes. -/
def charset : String :=
  "abcdefghijklmnopqrstuvwxyzABCDEFGHIJKLMNOPQRSTUVWXYZ0123456789"

/-- The alphabet as a character list (for indexing, as `charset[i]` in Go). -/
def charsetChars : List Char := charset.toList

/-- Embeds `LinkService.GenerateShortCode(length)`: draws `length` characters from
`charset`, one secure random index per character. The random source
`crypto/rand` is modelled as an infallible stream `rand : Nat → Nat` of
draws (position-indexed); `rand.Int(rand.Reader, 62)` returns a value in
`[0, 62)`, captured by `% charsetChars.length`. The Go error branch fires
only when reading `crypto/rand` itself fails, which the infallible stream
rules out, so the result is the plain string. -/
def GenerateShortCode (rand : Nat → Nat) (pos : Nat) (length : Nat) : String :=
  String.mk ((List.range length).map fun i =>
    charsetChars.getD (rand (pos + i) % charsetChars.length) 'a')

/-- The `maxRetries` constant in `LinkService.CreateLink`. -/
def maxRetries : Nat := 5

/-- Outcome of the retry loop inside `LinkService.CreateLink`: a free code was
found (`break`), the loop ran out of attempts with `shortCode == ""`, or the
uniqueness pre-check failed with a non-`NotFound` database error. -/
inductive LoopOutcome where
  | found (code : String)
  | exhausted
  | dbErr (e : GoError)
deriving DecidableEq, Repr

/-- The `for i := 0; i < maxRetries; i++` loop of `LinkService.CreateLink`:
generate a 6-character candidate, pre-check it via
`linkRepo.GetLinkByShortCode`; `errors.Is(err, gorm.ErrRecordNotFound)`
means the code is free (break), any other error aborts, a successful lookup
is a collision and the loop retries. `fuel` is the remaining iteration
count; `pos` is the random-stream position (each candidate consumes 6
draws). Returns the outcome, the store state, and the final position. -/
def createLinkLoop {σ : Type} (repo : LinkRepository σ) (rand : Nat → Nat) :
    Nat → Nat → σ → LoopOutcome × σ × Nat
  | 0, pos, st => (.exhausted, st, pos)
  | fuel + 1, pos, st =>
    let code := GenerateShortCode rand pos 6
    let (res, st') := repo.getLinkByShortCode st code
    match res with
    | .error e =>
      if errorsIs e .recordNotFound then (.found code, st', pos + 6)
      else (.dbErr e, st', pos + 6)
    | .ok _ => createLinkLoop repo rand fuel (pos + 6) st'

/-- Embeds `LinkService.CreateLink(longURL)`: run the retry loop; on a
non-`NotFound` pre-check error return it wrapped; on exhaustion return the
`errors.New` message; otherwise build the `models.Link` and persist it via
`linkRepo.CreateLink`, wrapping any persistence error (no retry after the
loop). Returns the result, the store state, and the random-stream position
reached. -/
def CreateLink {σ : Type} (repo : LinkRepository σ) (rand : Nat → Nat) (now : Nat)
    (longURL : String) (st : σ) (pos : Nat) : Except GoError Link × σ × Nat :=
  match createLinkLoop repo rand maxRetries pos st with
  | (.dbErr e, st', pos') =>
    (.error (.wrapped "database error checking short code uniqueness" e), st', pos')
  | (.exhausted, st', pos') =>
    (.error (.errString
      "impossible de générer un code court unique après plusieurs tentatives"), st', pos')
  | (.found code, st', pos') =>
    let link : Link := { id := 0, shortCode := code, longURL := longURL, createdAt := now }
    match repo.createLink st' link with
    | (.error e, st'') => (.error (.wrapped "erreur lors de la création du lien" e), st'', pos')
    | (.ok stored, st'') => (.ok stored, st'', pos')

/-- Embeds `LinkService.GetLinkByShortCode`: delegate to the repository, wrapping
any error with context. -/
def GetLinkByShortCode {σ : Type} (repo : LinkRepository σ) (st : σ) (code : String) :
    Except GoError Link × σ :=
  match repo.getLinkByShortCode st code with
  | (.error e, st') => (.error (.wrapped "erreur lors de la récupération du lien" e), st')
  | (.ok l, st') => (.ok l, st')

/-- The `links` table of the SQLite database: rows plus the auto-increment
counter. The `ShortCode` column carries a UNIQUE constraint. -/
structure LinkStore where
  links : List Link
  nextId : Nat
deriving DecidableEq, Repr

/-- Embeds `GormLinkRepository.GetLinkByShortCode` over a healthy database:
`SELECT ... WHERE short_code = ? LIMIT 1`; no row yields
`gorm.ErrRecordNotFound`; either way the repository wraps the error with
context (`fmt.Errorf(..., %w)`). -/
def gormGetLinkByShortCode (st : LinkStore) (code : String) : Except GoError Link × LinkStore :=
  match st.links.find? (fun l => l.shortCode == code) with
  | some l => (.ok l, st)
  | none =>
    (.error (.wrapped "erreur lors de la récupération du lien par shortCode" .recordNotFound), st)

/-- Embeds `GormLinkRepository.CreateLink` over a healthy database: `INSERT INTO
links ...`; the UNIQUE constraint on `short_code` rejects a duplicate code
with a driver error, which the repository wraps; on success GORM assigns the
auto-increment id and fills it into the caller's struct. -/
def gormCreateLink (st : LinkStore) (l : Link) : Except GoError Link × LinkStore :=
  if st.links.any (fun x => x.shortCode == l.shortCode) then
    (.error (.wrapped "erreur lors de la création du lien"
      (.dbError "UNIQUE constraint failed: links.short_code")), st)
  else
    let stored := { l with id := st.nextId }
    (.ok stored, { links := st.links ++ [stored], nextId := st.nextId + 1 })

/-- The GORM-backed `LinkRepository` over a healthy database. -/
def gormLinkRepo : LinkRepository LinkStore :=
  { getLinkByShortCode := gormGetLinkByShortCode
    createLink := gormCreateLink }

/-- Embeds `api.ClickEvent`: the event a redirect pushes on the channel. -/
structure ClickEvent where
  linkID : Nat
  shortCode : String
  timestamp : Nat
  userAgent : String
  ip : String
deriving DecidableEq, Repr

/-- Embeds `api.ClickEventsChannel`: a Go buffered channel of `api.ClickEvent`,
modelled as its capacity and its FIFO buffer. -/
structure Channel where
  capacity : Nat
  buffer : List ClickEvent
deriving DecidableEq, Repr

/-- The `select { case ch <- ev: ... default: ... }` in `RedirectHandler`:
non-blocking send. If the buffer has room the event is appended (FIFO) and
the send is reported accepted; otherwise the event is dropped (the handler
logs a warning) and `false` is reported, without waiting. -/
def tryEnqueue (ch : Channel) (ev : ClickEvent) : Bool × Channel :=
  if ch.buffer.length < ch.capacity then
    (true, { ch with buffer := ch.buffer ++ [ev] })
  else
    (false, ch)

/-- A sequence of non-blocking sends with no consumer: fold `tryEnqueue`
over the events, collecting the accepted/dropped flag of each. -/
def enqueueAll (ch : Channel) : List ClickEvent → Channel × List Bool
  | [] => (ch, [])
  | ev :: evs =>
    let (acc, ch') := tryEnqueue ch ev
    let (chF, flags) := enqueueAll ch' evs
    (chF, acc :: flags)

/-- The three HTTP responses `api.RedirectHandler` can produce. -/
inductive RedirectResponse where
  | notFoundJSON
  | serverErrorJSON
  | redirect (url : String)
deriving DecidableEq, Repr

/-- The `clickEvent := ClickEvent{...}` construction in `RedirectHandler`:
the event carries the resolved link's id, the requested short code, the
current time, and the request's user agent and client IP. -/
def eventOf (link : Link) (shortCode : String) (now : Nat) (userAgent ip : String) :
    ClickEvent :=
  { linkID := link.id, shortCode := shortCode, timestamp := now
    userAgent := userAgent, ip := ip }

/-- Embeds `api.RedirectHandler`: resolve the short code through
`linkService.GetLinkByShortCode`; `errors.Is(err, gorm.ErrRecordNotFound)`
yields 404, any other error 500, and in both cases the handler returns
before building a click event. On success it builds the `api.ClickEvent`
from the found link, performs the non-blocking enqueue (accepted or
dropped), and issues the 302 redirect to the link's long URL. -/
def RedirectHandler {σ : Type} (repo : LinkRepository σ) (st : σ) (ch : Channel)
    (shortCode userAgent ip : String) (now : Nat) :
    RedirectResponse × σ × Channel :=
  match GetLinkByShortCode repo st shortCode with
  | (.error e, st') =>
    if errorsIs e .recordNotFound then (.notFoundJSON, st', ch)
    else (.serverErrorJSON, st', ch)
  | (.ok link, st') =>
    let ev : ClickEvent := eventOf link shortCode now userAgent ip
    let (_, ch') := tryEnqueue ch ev
    (.redirect link.longURL, st', ch')

/-- Embeds `models.Click` (GORM model): the persisted projection of a click event. -/
structure Click where
  id : Nat
  linkID : Nat
  timestamp : Nat
  userAgent : String
  ipAddress : String
deriving DecidableEq, Repr

/-- The `clicks` table of the SQLite database. -/
structure ClickStore where
  clicks : List Click
  nextId : Nat
deriving DecidableEq, Repr

/-- Embeds `GormClickRepository.CreateClick` over a healthy database: `INSERT INTO
clicks ...` always succeeds, GORM assigning the auto-increment id. -/
def gormCreateClick (cs : ClickStore) (c : Click) : Except GoError ClickStore :=
  .ok { clicks := cs.clicks ++ [{ c with id := cs.nextId }], nextId := cs.nextId + 1 }

/-- Embeds `GormClickRepository.CountClicksByLinkID`: `SELECT COUNT(*) FROM clicks
WHERE link_id = ?`, wrapped error on a database fault (`dbFault` injects
one), otherwise the count converted to `int`. -/
def CountClicksByLinkID (dbFault : Option GoError) (cs : ClickStore) (linkID : Nat) :
    Except GoError Nat :=
  match dbFault with
  | some e => .error (.wrapped "erreur lors du comptage des clics" e)
  | none => .ok ((cs.clicks.filter (fun c => c.linkID == linkID)).length)

/-- The `click := &models.Click{...}` conversion inside `clickWorker`:
the event's fields minus its short code, id left to GORM. -/
def clickOfEvent (ev : ClickEvent) : Click :=
  { id := 0, linkID := ev.linkID, timestamp := ev.timestamp
    userAgent := ev.userAgent, ipAddress := ev.ip }

/-- One loop-body execution of `clickWorker` on a dequeued event: convert it
and call `clickRepo.CreateClick`; on error the worker only logs and keeps
the store unchanged — the error is swallowed (the result type has no error
channel) and the event is dropped either way. `createClick` is the
behaviour of the `ClickRepository` implementation handed to the worker. -/
def processEvent (createClick : ClickStore → Click → Except GoError ClickStore)
    (cs : ClickStore) (ev : ClickEvent) : ClickStore :=
  match createClick cs (clickOfEvent ev) with
  | .ok cs' => cs'
  | .error _ => cs

/-- Per-worker control state: inside the `for { select ... } }` loop
(`running`) or returned (`stopped`). -/
inductive WorkerPhase where
  | running
  | stopped
deriving DecidableEq, Repr

/-- One worker of the pool: its phase, and the event it has dequeued but not
yet persisted (`none` when it is parked at the `select`). -/
structure WorkerView where
  phase : WorkerPhase
  holding : Option ClickEvent
deriving DecidableEq, Repr

/-- Global state of the click pipeline: the N workers started by
`StartClickWorkers`, the shared buffered channel (its pending FIFO buffer
and capacity), whether the channel is closed, whether the shutdown `cancel()`
has fired (`ctx.Done()`), and the clicks table. -/
structure PoolState where
  workers : List WorkerView
  queue : List ClickEvent
  capacity : Nat
  closed : Bool
  cancelled : Bool
  store : ClickStore
deriving Repr

/-- Labels for the pipeline's atomic steps: worker `i` dequeues an event at
the `select`, worker `i` runs the loop body on the event it holds (the
`createClick` call), worker `i` returns, a producer's non-blocking send
succeeds, the shutdown `cancel()` fires, the channel is closed. -/
inductive PoolLabel where
  | dequeue (i : Nat) (ev : ClickEvent)
  | persist (i : Nat) (ev : ClickEvent)
  | stop (i : Nat)
  | enqueue (ev : ClickEvent)
  | cancel
  | close
deriving DecidableEq, Repr

/-- Small-step semantics of the worker pool (`clickWorker` instances over
one shared channel), parametrised by the `createClick` behaviour of the
click repository. Go channel semantics: a receive delivers the FIFO head to
exactly one worker; a receive on a closed channel still drains buffered
events and reports `ok = false` only once the buffer is empty; `select`
observes `ctx.Done()` only between loop iterations (cooperative
cancellation — a worker holding an event always finishes persisting it);
when both cases are ready, `select` picks nondeterministically, so
cancellation enables but does not force the stop. -/
inductive PoolStep (createClick : ClickStore → Click → Except GoError ClickStore) :
    PoolLabel → PoolState → PoolState → Prop where
  | dequeue {s : PoolState} {i : Nat} {w : WorkerView} {ev : ClickEvent}
      {rest : List ClickEvent} :
      s.workers[i]? = some w → w.phase = .running → w.holding = none →
      s.queue = ev :: rest →
      PoolStep createClick (.dequeue i ev) s
        { s with workers := s.workers.set i { w with holding := some ev }, queue := rest }
  | persist {s : PoolState} {i : Nat} {w : WorkerView} {ev : ClickEvent} :
      s.workers[i]? = some w → w.phase = .running → w.holding = some ev →
      PoolStep createClick (.persist i ev) s
        { s with workers := s.workers.set i { w with holding := none },
                 store := processEvent createClick s.store ev }
  | stopCancel {s : PoolState} {i : Nat} {w : WorkerView} :
      s.workers[i]? = some w → w.phase = .running → w.holding = none →
      s.cancelled = true →
      PoolStep createClick (.stop i) s
        { s with workers := s.workers.set i { w with phase := .stopped } }
  | stopClosed {s : PoolState} {i : Nat} {w : WorkerView} :
      s.workers[i]? = some w → w.phase = .running → w.holding = none →
      s.closed = true → s.queue = [] →
      PoolStep createClick (.stop i) s
        { s with workers := s.workers.set i { w with phase := .stopped } }
  | enqueue {s : PoolState} {ev : ClickEvent} :
      s.closed = false → s.queue.length < s.capacity →
      PoolStep createClick (.enqueue ev) s { s with queue := s.queue ++ [ev] }
  | cancel {s : PoolState} :
      PoolStep createClick .cancel s { s with cancelled := true }
  | close {s : PoolState} :
      PoolStep createClick .close s { s with closed := true }

/-- Steps of the pipeline in which no producer enqueues: the setting where
all events are enqueued before the workers run. -/
def PoolStepQuiet (createClick : ClickStore → Click → Except GoError ClickStore)
    (s s' : PoolState) : Prop :=
  ∃ l, PoolStep createClick l s s' ∧ ∀ ev, l ≠ .enqueue ev

/-- Reachability along producer-free pipeline steps. -/
def PoolReach (createClick : ClickStore → Click → Except GoError ClickStore) :
    PoolState → PoolState → Prop :=
  Relation.ReflTransGen (PoolStepQuiet createClick)

/-- The identity of a persisted `Click` net of its auto-increment id. -/
def projClick (c : Click) : Nat × Nat × String × String :=
  (c.linkID, c.timestamp, c.userAgent, c.ipAddress)

/-- The fields of a `ClickEvent` that survive into its persisted `Click`. -/
def projEvent (ev : ClickEvent) : Nat × Nat × String × String :=
  (ev.linkID, ev.timestamp, ev.userAgent, ev.ip)

/-- The click data a worker holds mid-iteration (none at the `select`). -/
def heldClicks (w : WorkerView) : Multiset (Nat × Nat × String × String) :=
  (w.holding.toList.map projEvent : List _)

/-- All click data in the pipeline: already persisted, held by a worker
mid-iteration, or still queued (as a multiset — workers interleave). -/
def poolContents (s : PoolState) : Multiset (Nat × Nat × String × String) :=
  (s.store.clicks.map projClick : List _) + (s.workers.map heldClicks).sum +
    (s.queue.map projEvent : List _)

/-- A worker parked at its `select`, ready to dequeue. -/
def idleWorker : WorkerView := { phase := .running, holding := none }

/-- A worker mid-iteration, holding the dequeued event `ev`. -/
def holdingWorker (ev : ClickEvent) : WorkerView := { phase := .running, holding := some ev }

/-- A pipeline whose n workers are all parked idle at their `select`, with
the given queue, capacity and clicks table. -/
def quietPool (n capacity : Nat) (queue : List ClickEvent) (cs : ClickStore) : PoolState :=
  { workers := List.replicate n idleWorker, queue := queue, capacity := capacity,
    closed := false, cancelled := false, store := cs }

/-- Initial pipeline state of the "enqueue M events, then start N workers"
scenario: the events sit in the channel buffer (placed there by
`tryEnqueue`), the N freshly started workers are all at their `select`,
nothing is cancelled or closed, the clicks table is empty. -/
def initPool (n capacity : Nat) (events : List ClickEvent) : PoolState :=
  { workers := List.replicate n idleWorker
    queue := (enqueueAll { capacity := capacity, buffer := [] } events).1.buffer
    capacity := capacity
    closed := false
    cancelled := false
    store := { clicks := [], nextId := 1 } }

/-- A repository behaviour exhibiting the check/insert race: the uniqueness
pre-check reports the candidate free (wrapped `gorm.ErrRecordNotFound`), but
a concurrent request claims the same code before our insert, so the persist
fails with the UNIQUE-constraint violation wrapped by
`GormLinkRepository.CreateLink`. -/
def raceRepo : LinkRepository Unit :=
  { getLinkByShortCode := fun st _ =>
      (.error (.wrapped "erreur lors de la récupération du lien par shortCode"
        .recordNotFound), st)
    createLink := fun st _ =>
      (.error (.wrapped "erreur lors de la création du lien"
        (.dbError "UNIQUE constraint failed: links.short_code")), st) }

/-- An arbitrary existing link, used by `collideRepo`. -/
def busyLink : Link :=
  { id := 1, shortCode := "aaaaaa", longURL := "http://busy.example", createdAt := 0 }

/-- A repository behaviour in which every candidate code already exists, so
every uniqueness pre-check reports a collision. -/
def collideRepo : LinkRepository Unit :=
  { getLinkByShortCode := fun st _ => (.ok busyLink, st)
    createLink := fun st l => (.ok l, st) }

/-- A repository behaviour whose lookup fails with a non-`NotFound` database
error (wrapped by the repository, as `GormLinkRepository` wraps driver
errors). -/
def faultRepo : LinkRepository Unit :=
  { getLinkByShortCode := fun st _ =>
      (.error (.wrapped "erreur lors de la récupération du lien par shortCode"
        (.dbError "disk I/O error")), st)
    createLink := fun st l => (.ok l, st) }

/-- Recogniser for the typed `customerrors.ErrMaxRetriesExceeded` error. -/
def isMaxRetriesExceeded : GoError → Bool
  | .maxRetriesExceeded _ _ => true
  | _ => false

/-- Concrete click events for witnesses (the spec's scenario events A-D). -/
def evA : ClickEvent :=
  { linkID := 1, shortCode := "aaaaaa", timestamp := 10, userAgent := "ua-A", ip := "1.1.1.1" }

/-- Second concrete click event. -/
def evB : ClickEvent :=
  { linkID := 1, shortCode := "aaaaaa", timestamp := 11, userAgent := "ua-B", ip := "2.2.2.2" }

/-- Third concrete click event. -/
def evC : ClickEvent :=
  { linkID := 2, shortCode := "bbbbbb", timestamp := 12, userAgent := "ua-C", ip := "3.3.3.3" }

/-- Fourth concrete click event. -/
def evD : ClickEvent :=
  { linkID := 2, shortCode := "bbbbbb", timestamp := 13, userAgent := "ua-D", ip := "4.4.4.4" }

/-- A click-store behaviour that always fails (e.g. the database file is
locked), for exercising the worker's error branch. -/
def failingCreateClick : ClickStore → Click → Except GoError ClickStore :=
  fun _ _ => .error (.wrapped "erreur lors de la création du clic" (.dbError "database is locked"))

/-- The link created by the C3 witness run (empty store, all-zero stream). -/
def exampleCreated : Link :=
  { id := 1, shortCode := "aaaaaa", longURL := "http://example.com", createdAt := 7 }

/-- The store after the C3 witness run. -/
def exampleStoreAfter : LinkStore := { links := [exampleCreated], nextId := 2 }

/-- A store holding just `busyLink`, for the C9 witness. -/
def busyStore : LinkStore := { links := [busyLink], nextId := 2 }

/-- A one-worker pipeline state in which the shutdown cancellation signal
has fired while the worker sits at its `select` with an empty queue. -/
def cancelledPool : PoolState :=
  { workers := [{ phase := .running, holding := none }], queue := [], capacity := 4,
    closed := false, cancelled := true, store := { clicks := [], nextId := 1 } }

/-- The same pipeline after the worker observes the cancellation and stops. -/
def cancelledPoolStopped : PoolState :=
  { cancelledPool with workers := [{ phase := .stopped, holding := none }] }

/-- A one-worker pipeline state in which the worker has dequeued `evA` and
is about to run the loop body, with `evB` still queued. -/
def poolHoldingA : PoolState :=
  { workers := [{ phase := .running, holding := some evA }], queue := [evB], capacity := 4,
    closed := false, cancelled := false, store := { clicks := [], nextId := 1 } }

/-- The same pipeline after the loop body ran against a failing click store:
the event is gone, nothing was persisted, the worker is back at its
`select`. -/
def poolHoldingADone : PoolState :=
  { poolHoldingA with
    workers := [{ phase := .running, holding := none }]
    store := processEvent failingCreateClick poolHoldingA.store evA }

/-! ### Generic helper lemmas -/

theorem getElem?_set_some {α : Type _} {l : List α} {i : Nat} {w : α} (a : α)
    (h : l[i]? = some w) : (l.set i a)[i]? = some a := by
  obtain ⟨hlt, -⟩ := List.getElem?_eq_some.mp h
  exact List.getElem?_set_self hlt

theorem set_getElem?_self {α : Type _} : ∀ {l : List α} {i : Nat} {w : α},
    l[i]? = some w → l.set i w = l
  | [], i, w, h => by simp at h
  | x :: xs, 0, w, h => by simp_all
  | x :: xs, i + 1, w, h => by
    simp only [List.set_cons_succ]
    simp only [List.getElem?_cons_succ] at h
    rw [set_getElem?_self h]

theorem sum_map_set {α β : Type _} (f : α → Multiset β) :
    ∀ (l : List α) (i : Nat) (w w' : α), l[i]? = some w →
      ((l.set i w').map f).sum + f w = (l.map f).sum + f w'
  | [], i, w, w', h => by simp at h
  | x :: xs, 0, w, w', h => by
    simp only [List.getElem?_cons_zero, Option.some.injEq] at h
    subst h
    simp [add_comm, add_left_comm]
  | x :: xs, i + 1, w, w', h => by
    simp only [List.getElem?_cons_succ] at h
    simp only [List.set_cons_succ, List.map_cons, List.sum_cons]
    have ih := sum_map_set f xs i w w' h
    calc f x + ((xs.set i w').map f).sum + f w
        = f x + (((xs.set i w').map f).sum + f w) := by rw [add_assoc]
      _ = f x + ((xs.map f).sum + f w') := by rw [ih]
      _ = f x + (xs.map f).sum + f w' := by rw [add_assoc]

/-! ### Behaviour of `enqueueAll` (claim C4 groundwork) -/

theorem enqueueAll_spec (C : Nat) :
    ∀ (evs pre : List ClickEvent), pre.length ≤ C →
      (enqueueAll { capacity := C, buffer := pre } evs).1 =
        { capacity := C, buffer := pre ++ evs.take (C - pre.length) } ∧
      (enqueueAll { capacity := C, buffer := pre } evs).2 =
        List.replicate (min (C - pre.length) evs.length) true ++
          List.replicate (evs.length - (C - pre.length)) false
  | [], pre, hpre => by simp [enqueueAll]
  | ev :: evs, pre, hpre => by
    by_cases hfull : pre.length < C
    · have hstep : tryEnqueue { capacity := C, buffer := pre } ev =
          (true, { capacity := C, buffer := pre ++ [ev] }) := by
        simp [tryEnqueue, hfull]
      have hlen : (pre ++ [ev]).length ≤ C := by
        simp only [List.length_append, List.length_cons, List.length_nil]
        omega
      obtain ⟨ih1, ih2⟩ := enqueueAll_spec C evs (pre ++ [ev]) hlen
      refine ⟨?_, ?_⟩
      · simp only [enqueueAll, hstep, ih1]
        have harith : C - pre.length = (C - (pre ++ [ev]).length) + 1 := by
          simp only [List.length_append, List.length_cons, List.length_nil]
          omega
        rw [harith, List.take_succ_cons, List.append_assoc]
        rfl
      · simp only [enqueueAll, hstep, ih2]
        have harith : min (C - pre.length) (ev :: evs).length =
            min (C - (pre ++ [ev]).length) evs.length + 1 := by
          simp only [List.length_append, List.length_cons, List.length_nil]
          omega
        have harith2 : (ev :: evs).length - (C - pre.length) =
            evs.length - (C - (pre ++ [ev]).length) := by
          simp only [List.length_append, List.length_cons, List.length_nil]
          omega
        rw [harith, harith2, List.replicate_succ, List.cons_append]
    · have hstep : tryEnqueue { capacity := C, buffer := pre } ev =
          (false, { capacity := C, buffer := pre }) := by
        simp [tryEnqueue, hfull]
      have heq : pre.length = C := by omega
      obtain ⟨ih1, ih2⟩ := enqueueAll_spec C evs pre hpre
      refine ⟨?_, ?_⟩
      · simp only [enqueueAll, hstep, ih1, heq]
        simp
      · simp only [enqueueAll, hstep, ih2, heq]
        simp [List.replicate_succ]

/-! ### Claim theorems -/

/-- C4: with no worker draining, a sequence of `tryEnqueue` calls on a
channel of capacity `C` accepts exactly the first `C` events and retains
them in FIFO order, rejects every subsequent event immediately, leaves
`min C n` events retained (exactly `C` once the capacity is exceeded), and a
send on a full channel returns `false` with the channel unchanged rather
than blocking (the producer call is a total, immediately returning
operation). -/
theorem tryEnqueue_capacity_fifo (C : Nat) (evs : List ClickEvent) :
    (enqueueAll { capacity := C, buffer := [] } evs).1.buffer = evs.take C ∧
    (enqueueAll { capacity := C, buffer := [] } evs).2 =
      List.replicate (min C evs.length) true ++ List.replicate (evs.length - C) false ∧
    (enqueueAll { capacity := C, buffer := [] } evs).1.buffer.length = min C evs.length ∧
    (∀ (ch : Channel) (ev : ClickEvent), ¬ ch.buffer.length < ch.capacity →
      tryEnqueue ch ev = (false, ch)) := by
  obtain ⟨h1, h2⟩ := enqueueAll_spec C evs [] (by simp)
  refine ⟨?_, ?_, ?_, ?_⟩
  · rw [h1]; simp
  · rw [h2]; simp
  · rw [h1]; simp [List.length_take, Nat.min_comm]
  · intro ch ev hfull
    simp [tryEnqueue, hfull]

/-- C4 witness: capacity 2, four events — A and B accepted and retained in
order, C and D dropped, and a send on the resulting full channel returns
`false` without modifying it. -/
theorem tryEnqueue_capacity_fifo_witness :
    (enqueueAll { capacity := 2, buffer := [] } [evA, evB, evC, evD]).1.buffer = [evA, evB] ∧
    (enqueueAll { capacity := 2, buffer := [] } [evA, evB, evC, evD]).2 =
      [true, true, false, false] ∧
    tryEnqueue { capacity := 2, buffer := [evA, evB] } evC =
      (false, { capacity := 2, buffer := [evA, evB] }) := by
  have h := tryEnqueue_capacity_fifo 2 [evA, evB, evC, evD]
  refine ⟨h.1.trans (by decide), (h.2.1).trans (by decide), ?_⟩
  exact h.2.2.2 { capacity := 2, buffer := [evA, evB] } evC (by decide)

/-- C8: counting clicks for a link that has none recorded returns the count
`0` with no error — absence of clicks is not reported as an error. -/
theorem countClicks_zero_ok (cs : ClickStore) (linkID : Nat)
    (h : ∀ c ∈ cs.clicks, c.linkID ≠ linkID) :
    CountClicksByLinkID none cs linkID = .ok 0 := by
  have hnil : cs.clicks.filter (fun c => c.linkID == linkID) = [] := by
    rw [List.filter_eq_nil_iff]
    intro c hc
    simpa using h c hc
  simp [CountClicksByLinkID, hnil]

/-- Characterisation of the retry loop when a uniqueness pre-check hits a
non-`NotFound` database error, for a repository whose lookup does not modify
the store: the loop stops at the failing attempt, the store is untouched,
and only the attempts up to the failure drew candidates. -/
theorem createLinkLoop_dbErr {σ : Type} (repo : LinkRepository σ) (rand : Nat → Nat)
    (hro : ∀ (s : σ) (c : String), (repo.getLinkByShortCode s c).2 = s) :
    ∀ (fuel pos : Nat) (st : σ) (e : GoError) (stOut : σ) (posOut : Nat),
      createLinkLoop repo rand fuel pos st = (.dbErr e, stOut, posOut) →
      stOut = st ∧ errorsIs e .recordNotFound = false ∧
        ∃ k, k < fuel ∧ posOut = pos + 6 * (k + 1) := by
  intro fuel
  induction fuel with
  | zero =>
    intro pos st e stOut posOut h
    simp [createLinkLoop] at h
  | succ n ih =>
    intro pos st e stOut posOut h
    rcases hg : repo.getLinkByShortCode st (GenerateShortCode rand pos 6) with ⟨res, st1⟩
    have hst1 : st1 = st := by
      have := hro st (GenerateShortCode rand pos 6)
      rw [hg] at this
      exact this
    simp only [createLinkLoop, hg] at h
    cases res with
    | error e0 =>
      by_cases hnf : errorsIs e0 .recordNotFound = true
      · simp [hnf] at h
      · simp only [Bool.not_eq_true] at hnf
        simp only [hnf, Bool.false_eq_true, if_false, Prod.mk.injEq,
          LoopOutcome.dbErr.injEq] at h
        obtain ⟨he, hst, hpos⟩ := h
        subst he
        exact ⟨hst.symm.trans hst1, hnf, 0, by omega, by omega⟩
    | ok l =>
      simp only [] at h
      obtain ⟨h1, h2, k, hk, hp⟩ := ih (pos + 6) st1 e stOut posOut h
      exact ⟨h1.trans hst1, h2, k + 1, by omega, by omega⟩

/-- Characterisation of the retry loop when every candidate collides (the
pre-check finds each one already present): all `fuel` attempts are consumed
and the loop falls through with no code chosen. -/
theorem createLinkLoop_allCollide {σ : Type} (repo : LinkRepository σ) (rand : Nat → Nat)
    (hcoll : ∀ (s : σ) (c : String), ∃ l s', repo.getLinkByShortCode s c = (.ok l, s')) :
    ∀ (fuel pos : Nat) (st : σ),
      ∃ stOut, createLinkLoop repo rand fuel pos st = (.exhausted, stOut, pos + 6 * fuel) := by
  intro fuel
  induction fuel with
  | zero =>
    intro pos st
    exact ⟨st, by simp [createLinkLoop]⟩
  | succ n ih =>
    intro pos st
    obtain ⟨l, s', hg⟩ := hcoll st (GenerateShortCode rand pos 6)
    obtain ⟨stOut, ih'⟩ := ih (pos + 6) s'
    refine ⟨stOut, ?_⟩
    simp only [createLinkLoop, hg]
    rw [ih']
    have : pos + 6 + 6 * n = pos + 6 * (n + 1) := by omega
    rw [this]

/-- C10: if a uniqueness pre-check inside the retry loop fails with an error
other than `NotFound` (for a repository whose lookup is read-only),
`CreateLink` returns at once with that storage error wrapped in
"database error checking short code uniqueness", the store is unchanged (no
`Link` was persisted), and only the `k + 1 ≤ maxRetries` attempts up to the
failure generated candidates — the remaining retry budget is abandoned. -/
theorem createLink_precheckError_aborts {σ : Type} (repo : LinkRepository σ)
    (rand : Nat → Nat) (now : Nat) (longURL : String) (st stOut : σ) (pos posOut : Nat)
    (e : GoError)
    (hro : ∀ (s : σ) (c : String), (repo.getLinkByShortCode s c).2 = s)
    (h : createLinkLoop repo rand maxRetries pos st = (.dbErr e, stOut, posOut)) :
    CreateLink repo rand now longURL st pos =
      (.error (.wrapped "database error checking short code uniqueness" e), st, posOut) ∧
    stOut = st ∧ errorsIs e .recordNotFound = false ∧
    ∃ k, k < maxRetries ∧ posOut = pos + 6 * (k + 1) := by
  obtain ⟨hst, hnf, hk⟩ := createLinkLoop_dbErr repo rand hro maxRetries pos st e stOut posOut h
  subst hst
  exact ⟨by simp only [CreateLink, h], rfl, hnf, hk⟩

/-- C10 witness: a lookup failing with a wrapped "disk I/O error" on the very
first attempt makes `CreateLink` return the doubly wrapped error immediately,
with only one candidate (6 random draws) consumed. -/
theorem createLink_precheckError_aborts_witness :
    CreateLink faultRepo (fun _ => 0) 0 "http://example.com" () 0 =
      (.error (.wrapped "database error checking short code uniqueness"
        (.wrapped "erreur lors de la récupération du lien par shortCode"
          (.dbError "disk I/O error"))), (), 6) ∧
    ∃ k, k < maxRetries ∧ 6 = 0 + 6 * (k + 1) := by
  have h := createLink_precheckError_aborts faultRepo (fun _ => 0) 0 "http://example.com"
    () () 0 6
    (.wrapped "erreur lors de la récupération du lien par shortCode" (.dbError "disk I/O error"))
    (fun _ _ => rfl) rfl
  exact ⟨h.1, h.2.2.2⟩

/-- C2 counterexample: with every candidate colliding, the error `CreateLink`
actually returns after exhausting its 5 attempts is the plain
`errors.New` message — not the typed `customerrors.ErrMaxRetriesExceeded`,
and it carries no attempt count. -/
theorem createLink_exhausted_notTyped_counterexample :
    (CreateLink collideRepo (fun _ => 0) 0 "http://example.com" () 0).1 =
      .error (.errString
        "impossible de générer un code court unique après plusieurs tentatives") ∧
    isMaxRetriesExceeded
      (.errString "impossible de générer un code court unique après plusieurs tentatives")
      = false :=
  ⟨rfl, rfl⟩

/-- C2 amended: when all `maxRetries` (5) pre-checks find the candidate
already present, `CreateLink` fails with the untyped `errors.New` error
carrying a fixed message and no attempt count (the typed
`ErrMaxRetriesExceeded` is never produced), and this error is returned to
the caller of link creation; all five attempts drew candidates. -/
theorem createLink_exhausted_genericError {σ : Type} (repo : LinkRepository σ)
    (rand : Nat → Nat) (now : Nat) (longURL : String) (st : σ) (pos : Nat)
    (hcoll : ∀ (s : σ) (c : String), ∃ l s', repo.getLinkByShortCode s c = (.ok l, s')) :
    (∃ stOut, CreateLink repo rand now longURL st pos =
      (.error (.errString
        "impossible de générer un code court unique après plusieurs tentatives"), stOut,
        pos + 6 * maxRetries)) ∧
    isMaxRetriesExceeded
      (.errString "impossible de générer un code court unique après plusieurs tentatives")
      = false := by
  obtain ⟨stOut, hloop⟩ := createLinkLoop_allCollide repo rand hcoll maxRetries pos st
  exact ⟨⟨stOut, by simp only [CreateLink, hloop]⟩, rfl⟩

/-- C2 witness: the always-colliding repository exhausts the retries and
yields the untyped error, 30 random draws (5 candidates) consumed. -/
theorem createLink_exhausted_genericError_witness :
    (∃ stOut, CreateLink collideRepo (fun _ => 0) 0 "http://example.com" () 0 =
      (.error (.errString
        "impossible de générer un code court unique après plusieurs tentatives"), stOut,
        0 + 6 * maxRetries)) ∧
    isMaxRetriesExceeded
      (.errString "impossible de générer un code court unique après plusieurs tentatives")
      = false :=
  createLink_exhausted_genericError collideRepo (fun _ => 0) 0 "http://example.com" () 0
    (fun s _ => ⟨busyLink, s, rfl⟩)

/-- C1 counterexample: under the check/insert race (pre-check says the code
is free, the insert then hits the UNIQUE constraint), `CreateLink` returns
the wrapped persistence error: creation aborts, and the final random-stream
position 6 shows exactly one candidate was generated — no second retry
cycle, no fresh candidate. -/
theorem createLink_persistUnique_counterexample :
    CreateLink raceRepo (fun _ => 0) 0 "http://example.com" () 0 =
      (.error (.wrapped "erreur lors de la création du lien"
        (.wrapped "erreur lors de la création du lien"
          (.dbError "UNIQUE constraint failed: links.short_code"))), (), 6) :=
  rfl

/-- C1 amended: a failure of the persist call — a uniqueness violation from
the race included — is treated as a fatal error: `CreateLink` immediately
returns the error wrapped in "erreur lors de la création du lien", with the
random-stream position unchanged from the moment the code was chosen (no
fresh candidate, no further retry cycle). -/
theorem createLink_persistError_fatal {σ : Type} (repo : LinkRepository σ)
    (rand : Nat → Nat) (now : Nat) (longURL : String) (st st1 st2 : σ)
    (pos pos1 : Nat) (code : String) (e : GoError)
    (hloop : createLinkLoop repo rand maxRetries pos st = (.found code, st1, pos1))
    (hcreate : repo.createLink st1
      { id := 0, shortCode := code, longURL := longURL, createdAt := now } = (.error e, st2)) :
    CreateLink repo rand now longURL st pos =
      (.error (.wrapped "erreur lors de la création du lien" e), st2, pos1) := by
  simp only [CreateLink, hloop, hcreate]

/-- C1 amended witness: the racing repository realises the hypotheses —
pre-check free on the first candidate, insert rejected by the UNIQUE
constraint — and the call fails fatally with one candidate consumed. -/
theorem createLink_persistError_fatal_witness :
    CreateLink raceRepo (fun _ => 0) 0 "http://example.com" () 0 =
      (.error (.wrapped "erreur lors de la création du lien"
        (.wrapped "erreur lors de la création du lien"
          (.dbError "UNIQUE constraint failed: links.short_code"))), (), 6) :=
  createLink_persistError_fatal raceRepo (fun _ => 0) 0 "http://example.com" () () ()
    0 6 "aaaaaa"
    (.wrapped "erreur lors de la création du lien"
      (.dbError "UNIQUE constraint failed: links.short_code"))
    rfl rfl

/-- Every code the retry loop settles on is an output of
`GenerateShortCode` with length 6 (the loop never fabricates a code). -/
theorem createLinkLoop_found_code {σ : Type} (repo : LinkRepository σ) (rand : Nat → Nat) :
    ∀ (fuel pos : Nat) (st : σ) (code : String) (stOut : σ) (posOut : Nat),
      createLinkLoop repo rand fuel pos st = (.found code, stOut, posOut) →
      ∃ p, code = GenerateShortCode rand p 6 := by
  intro fuel
  induction fuel with
  | zero =>
    intro pos st code stOut posOut h
    simp [createLinkLoop] at h
  | succ n ih =>
    intro pos st code stOut posOut h
    rcases hg : repo.getLinkByShortCode st (GenerateShortCode rand pos 6) with ⟨res, st1⟩
    simp only [createLinkLoop, hg] at h
    cases res with
    | error e0 =>
      by_cases hnf : errorsIs e0 .recordNotFound = true
      · simp only [hnf, if_true, Prod.mk.injEq, LoopOutcome.found.injEq] at h
        exact ⟨pos, h.1.symm⟩
      · simp only [Bool.not_eq_true] at hnf
        simp [hnf] at h
    | ok l =>
      simp only [] at h
      exact ih (pos + 6) st1 code stOut posOut h

/-- A generated short code has exactly the requested length. -/
theorem generateShortCode_length (rand : Nat → Nat) (pos len : Nat) :
    (GenerateShortCode rand pos len).length = len := by
  simp [GenerateShortCode, String.length]

/-- Every character of a generated short code is drawn from the alphabet. -/
theorem generateShortCode_mem_charset (rand : Nat → Nat) (pos len : Nat) :
    ∀ c ∈ (GenerateShortCode rand pos len).toList, c ∈ charsetChars := by
  intro c hc
  have hc' : c ∈ (List.range len).map fun i =>
      charsetChars.getD (rand (pos + i) % charsetChars.length) 'a' := hc
  rw [List.mem_map] at hc'
  obtain ⟨i, -, rfl⟩ := hc'
  have hpos : 0 < charsetChars.length := by decide
  have hlt : rand (pos + i) % charsetChars.length < charsetChars.length :=
    Nat.mod_lt _ hpos
  rw [List.getD_eq_getElem _ _ hlt]
  exact List.getElem_mem hlt

/-- What a successful GORM insert means: the stored link is the argument
with the auto-increment id, the table gained exactly that row, and no
existing row shared its short code (the UNIQUE constraint admitted it). -/
theorem gormCreateLink_ok {st : LinkStore} {l stored : Link} {st' : LinkStore}
    (h : gormCreateLink st l = (.ok stored, st')) :
    stored = { l with id := st.nextId } ∧
    st' = { links := st.links ++ [stored], nextId := st.nextId + 1 } ∧
    st.links.any (fun x => x.shortCode == l.shortCode) = false := by
  by_cases hany : st.links.any (fun x => x.shortCode == l.shortCode) = true
  · simp [gormCreateLink, hany] at h
  · simp only [Bool.not_eq_true] at hany
    simp only [gormCreateLink, hany, Bool.false_eq_true, if_false, Prod.mk.injEq,
      Except.ok.injEq] at h
    exact ⟨h.1.symm, by rw [← h.2, ← h.1], hany⟩

/-- Searching a table extended by one row whose code matches, none of the
earlier rows matching, finds exactly the new row. -/
theorem find?_append_singleton {links : List Link} {x : Link} {code : String}
    (hnone : ∀ l ∈ links, (l.shortCode == code) = false)
    (hx : (x.shortCode == code) = true) :
    (links ++ [x]).find? (fun l => l.shortCode == code) = some x := by
  rw [List.find?_append]
  have h1 : links.find? (fun l => l.shortCode == code) = none :=
    List.find?_eq_none.mpr (by intro y hy; simp [hnone y hy])
  rw [h1]
  simp [List.find?, hx]

/-- C3: whenever `CreateLink` over the GORM repository succeeds, the returned
link's short code has exactly length 6, all its characters come from the
fixed alphanumeric alphabet, the link records the requested long URL, and a
subsequent `GetLinkByShortCode` on the resulting store finds a link whose
long URL is the original input. -/
theorem createLink_success_roundtrip (rand : Nat → Nat) (now : Nat) (longURL : String)
    (st : LinkStore) (pos : Nat) (link : Link) (stOut : LinkStore) (posOut : Nat)
    (h : CreateLink gormLinkRepo rand now longURL st pos = (.ok link, stOut, posOut)) :
    link.shortCode.length = 6 ∧
    (∀ c ∈ link.shortCode.toList, c ∈ charsetChars) ∧
    link.longURL = longURL ∧
    ∃ found stSame, GetLinkByShortCode gormLinkRepo stOut link.shortCode =
      (.ok found, stSame) ∧ found.longURL = longURL := by
  rcases hloop : createLinkLoop gormLinkRepo rand maxRetries pos st with ⟨outcome, st1, pos1⟩
  simp only [CreateLink, hloop] at h
  cases outcome with
  | dbErr e => simp at h
  | exhausted => simp at h
  | found code =>
    rcases hcr : gormLinkRepo.createLink st1
        { id := 0, shortCode := code, longURL := longURL, createdAt := now } with ⟨res2, st2⟩
    simp only [hcr] at h
    cases res2 with
    | error e => simp at h
    | ok stored =>
      simp only [Prod.mk.injEq, Except.ok.injEq] at h
      obtain ⟨hlink, hstOut, -⟩ := h
      subst hlink
      subst hstOut
      have hcr' : gormCreateLink st1
          { id := 0, shortCode := code, longURL := longURL, createdAt := now } =
          (.ok stored, st2) := hcr
      obtain ⟨hstored, hst2, hany⟩ := gormCreateLink_ok hcr'
      obtain ⟨p, hcode⟩ :=
        createLinkLoop_found_code gormLinkRepo rand maxRetries pos st code st1 pos1 hloop
      have hsc : stored.shortCode = code := by rw [hstored]
      refine ⟨?_, ?_, ?_, ?_⟩
      · rw [hsc, hcode]
        exact generateShortCode_length rand p 6
      · rw [hsc, hcode]
        exact generateShortCode_mem_charset rand p 6
      · rw [hstored]
      · have hnone : ∀ l ∈ st1.links, (l.shortCode == stored.shortCode) = false := by
          intro l hl
          have := (List.any_eq_false.mp hany) l hl
          rw [hsc]
          simpa using this
        have hfind : (st1.links ++ [stored]).find?
            (fun l => l.shortCode == stored.shortCode) = some stored :=
          find?_append_singleton hnone (by simp)
        refine ⟨stored, st2, ?_, by rw [hstored]⟩
        simp only [GetLinkByShortCode, gormLinkRepo, gormGetLinkByShortCode, hst2, hfind]

/-- C3 witness: from an empty store with the all-zero random stream,
`CreateLink` succeeds with code "aaaaaa"; the code has length 6 over the
alphabet, and looking it up in the resulting store returns the original
long URL. -/
theorem createLink_success_roundtrip_witness :
    exampleCreated.shortCode.length = 6 ∧
    (∀ c ∈ exampleCreated.shortCode.toList, c ∈ charsetChars) ∧
    exampleCreated.longURL = "http://example.com" ∧
    ∃ found stSame, GetLinkByShortCode gormLinkRepo exampleStoreAfter
        exampleCreated.shortCode = (.ok found, stSame) ∧
      found.longURL = "http://example.com" :=
  createLink_success_roundtrip (fun _ => 0) 7 "http://example.com"
    { links := [], nextId := 1 } 0 exampleCreated exampleStoreAfter 6 rfl

/-- C9: the redirect handler enqueues only after a successful lookup — when
the lookup errors (not-found or otherwise) the channel is untouched and no
redirect is issued; when it succeeds, the response is the redirect to the
found link's long URL and the only channel change is the non-blocking
enqueue of an event carrying that link's id; over the GORM repository a
successful lookup returns a link present in the store at lookup time. -/
theorem redirect_enqueue_only_after_lookup {σ : Type} (repo : LinkRepository σ) (st : σ)
    (ch : Channel) (code ua ip : String) (now : Nat) :
    (∀ e stE, GetLinkByShortCode repo st code = (.error e, stE) →
      (RedirectHandler repo st ch code ua ip now).2.2 = ch ∧
      ∀ url, (RedirectHandler repo st ch code ua ip now).1 ≠ .redirect url) ∧
    (∀ link stO, GetLinkByShortCode repo st code = (.ok link, stO) →
      RedirectHandler repo st ch code ua ip now =
        (.redirect link.longURL, stO, (tryEnqueue ch (eventOf link code now ua ip)).2)) ∧
    (∀ (stG : LinkStore) (link : Link) (stO : LinkStore),
      GetLinkByShortCode gormLinkRepo stG code = (.ok link, stO) → link ∈ stG.links) := by
  refine ⟨?_, ?_, ?_⟩
  · intro e stE h
    by_cases hnf : errorsIs e .recordNotFound = true
    · simp [RedirectHandler, h, hnf]
    · simp only [Bool.not_eq_true] at hnf
      simp [RedirectHandler, h, hnf]
  · intro link stO h
    simp [RedirectHandler, h]
  · intro stG link stO h
    rcases hf : stG.links.find? (fun l => l.shortCode == code) with - | l
    · simp [GetLinkByShortCode, gormLinkRepo, gormGetLinkByShortCode, hf] at h
    · simp only [GetLinkByShortCode, gormLinkRepo, gormGetLinkByShortCode, hf,
        Prod.mk.injEq, Except.ok.injEq] at h
      rw [← h.1]
      exact List.mem_of_find?_eq_some hf

/-- C9 witness: with a store holding one link, a redirect for its code
enqueues one event carrying the link's id and redirects to its long URL; the
looked-up link is indeed in the store. -/
theorem redirect_enqueue_only_after_lookup_witness :
    RedirectHandler gormLinkRepo busyStore
        { capacity := 2, buffer := [] } "aaaaaa" "ua-A" "1.1.1.1" 10 =
      (.redirect "http://busy.example", busyStore,
        { capacity := 2, buffer := [eventOf busyLink "aaaaaa" 10 "ua-A" "1.1.1.1"] }) ∧
    busyLink ∈ busyStore.links := by
  have h := redirect_enqueue_only_after_lookup gormLinkRepo busyStore
    { capacity := 2, buffer := [] } "aaaaaa" "ua-A" "1.1.1.1" 10
  exact ⟨(h.2.1 busyLink busyStore rfl).trans rfl,
    h.2.2 busyStore busyLink busyStore rfl⟩

/-- Updating worker `j` leaves every slot analysable: slot `i` either is `j`
(and now holds the update) or is untouched. -/
theorem workers_set_analysis {l : List WorkerView} {j : Nat} {wj a : WorkerView}
    (hj : l[j]? = some wj) (i : Nat) (w w' : WorkerView)
    (hw : l[i]? = some w) (hw' : (l.set j a)[i]? = some w') :
    (i = j ∧ w = wj ∧ w' = a) ∨ (i ≠ j ∧ w' = w) := by
  by_cases hij : i = j
  · subst hij
    rw [getElem?_set_some a hj] at hw'
    have hww : w = wj := by
      rw [hw] at hj
      exact Option.some.inj hj
    exact Or.inl ⟨rfl, hww, (Option.some.inj hw').symm⟩
  · rw [List.getElem?_set_ne (fun h => hij h.symm)] at hw'
    rw [hw] at hw'
    exact Or.inr ⟨hij, (Option.some.inj hw').symm⟩

/-- A phase-preserving update of worker `j` preserves every worker's phase. -/
theorem workers_set_phase_preserved {l : List WorkerView} {j : Nat} {wj a : WorkerView}
    (hj : l[j]? = some wj) (ha : a.phase = wj.phase) :
    ∀ (i : Nat) (w w' : WorkerView), l[i]? = some w → (l.set j a)[i]? = some w' →
      w'.phase = w.phase := by
  intro i w w' hw hw'
  rcases workers_set_analysis hj i w w' hw hw' with ⟨-, rfl, rfl⟩ | ⟨-, rfl⟩
  · exact ha
  · rfl

/-- C5: along any step of the worker pool, (1) a worker transitions from
`Running` to `Stopped` only when the cancellation signal is set or the queue
is closed and empty; (2) `Stopped` is terminal — a stopped worker stays
stopped across every step; (3) a `createClick` call (a persist step) is made
only by a worker that is still `Running`, so no worker calls `createClick`
after reaching `Stopped`; (4) conversely, whenever a running worker sits at
its `select` and the cancellation signal is set or the queue is closed and
empty, the stop transition is enabled. -/
theorem worker_stop_transition (cc : ClickStore → Click → Except GoError ClickStore)
    (l : PoolLabel) (s s' : PoolState) (hstep : PoolStep cc l s s') :
    (∀ (i : Nat) (w w' : WorkerView), s.workers[i]? = some w → s'.workers[i]? = some w' →
      w.phase = .running → w'.phase = .stopped →
      s.cancelled = true ∨ (s.closed = true ∧ s.queue = [])) ∧
    (∀ (i : Nat) (w w' : WorkerView), s.workers[i]? = some w → s'.workers[i]? = some w' →
      w.phase = .stopped → w'.phase = .stopped) ∧
    (∀ (i : Nat) (ev : ClickEvent), l = .persist i ev →
      ∃ w : WorkerView, s.workers[i]? = some w ∧ w.phase = .running) ∧
    (∀ (i : Nat) (w : WorkerView), s.workers[i]? = some w → w.phase = .running →
      w.holding = none →
      s.cancelled = true ∨ (s.closed = true ∧ s.queue = []) →
      PoolStep cc (.stop i) s
        { s with workers := s.workers.set i { w with phase := .stopped } }) := by
  have h4 : ∀ (i : Nat) (w : WorkerView), s.workers[i]? = some w → w.phase = .running →
      w.holding = none →
      s.cancelled = true ∨ (s.closed = true ∧ s.queue = []) →
      PoolStep cc (.stop i) s
        { s with workers := s.workers.set i { w with phase := .stopped } } := by
    intro i w hw hrun hhold hcond
    rcases hcond with hc | ⟨hcl, hq⟩
    · exact PoolStep.stopCancel hw hrun hhold hc
    · exact PoolStep.stopClosed hw hrun hhold hcl hq
  cases hstep with
  | @dequeue _ j wj ev0 rest0 hj hrun hhold hq =>
    refine ⟨?_, ?_, ?_, h4⟩
    · intro i w w' hw hw' hwrun hwstop
      have hw2 : (s.workers.set j { wj with holding := some ev0 })[i]? = some w' := hw'
      have hp := workers_set_phase_preserved (a := { wj with holding := some ev0 })
        hj rfl i w w' hw hw2
      rw [hwstop, hwrun] at hp
      exact WorkerPhase.noConfusion hp
    · intro i w w' hw hw' hwstop
      have hw2 : (s.workers.set j { wj with holding := some ev0 })[i]? = some w' := hw'
      have hp := workers_set_phase_preserved (a := { wj with holding := some ev0 })
        hj rfl i w w' hw hw2
      rw [hp, hwstop]
    · intro i ev h
      exact PoolLabel.noConfusion h
  | @persist _ j wj ev0 hj hrun hhold =>
    refine ⟨?_, ?_, ?_, h4⟩
    · intro i w w' hw hw' hwrun hwstop
      have hw2 : (s.workers.set j { wj with holding := none })[i]? = some w' := hw'
      have hp := workers_set_phase_preserved (a := { wj with holding := none })
        hj rfl i w w' hw hw2
      rw [hwstop, hwrun] at hp
      exact WorkerPhase.noConfusion hp
    · intro i w w' hw hw' hwstop
      have hw2 : (s.workers.set j { wj with holding := none })[i]? = some w' := hw'
      have hp := workers_set_phase_preserved (a := { wj with holding := none })
        hj rfl i w w' hw hw2
      rw [hp, hwstop]
    · intro i ev h
      cases h
      exact ⟨wj, hj, hrun⟩
  | @stopCancel _ j wj hj hrun hhold hc =>
    refine ⟨fun _ _ _ _ _ _ _ => Or.inl hc, ?_, ?_, h4⟩
    · intro i w w' hw hw' hwstop
      have hw2 : (s.workers.set j { wj with phase := .stopped })[i]? = some w' := hw'
      rcases workers_set_analysis hj i w w' hw hw2 with ⟨-, rfl, rfl⟩ | ⟨-, rfl⟩
      · rfl
      · exact hwstop
    · intro i ev h
      exact PoolLabel.noConfusion h
  | @stopClosed _ j wj hj hrun hhold hcl hq =>
    refine ⟨fun _ _ _ _ _ _ _ => Or.inr ⟨hcl, hq⟩, ?_, ?_, h4⟩
    · intro i w w' hw hw' hwstop
      have hw2 : (s.workers.set j { wj with phase := .stopped })[i]? = some w' := hw'
      rcases workers_set_analysis hj i w w' hw hw2 with ⟨-, rfl, rfl⟩ | ⟨-, rfl⟩
      · rfl
      · exact hwstop
    · intro i ev h
      exact PoolLabel.noConfusion h
  | enqueue hcl hcap =>
    refine ⟨?_, ?_, ?_, h4⟩
    · intro i w w' hw hw' hwrun hwstop
      have hw2 : s.workers[i]? = some w' := hw'
      rw [hw] at hw2
      rw [← Option.some.inj hw2, hwrun] at hwstop
      exact WorkerPhase.noConfusion hwstop
    · intro i w w' hw hw' hwstop
      have hw2 : s.workers[i]? = some w' := hw'
      rw [hw] at hw2
      rw [← Option.some.inj hw2]
      exact hwstop
    · intro i ev h
      exact PoolLabel.noConfusion h
  | cancel =>
    refine ⟨?_, ?_, ?_, h4⟩
    · intro i w w' hw hw' hwrun hwstop
      have hw2 : s.workers[i]? = some w' := hw'
      rw [hw] at hw2
      rw [← Option.some.inj hw2, hwrun] at hwstop
      exact WorkerPhase.noConfusion hwstop
    · intro i w w' hw hw' hwstop
      have hw2 : s.workers[i]? = some w' := hw'
      rw [hw] at hw2
      rw [← Option.some.inj hw2]
      exact hwstop
    · intro i ev h
      exact PoolLabel.noConfusion h
  | close =>
    refine ⟨?_, ?_, ?_, h4⟩
    · intro i w w' hw hw' hwrun hwstop
      have hw2 : s.workers[i]? = some w' := hw'
      rw [hw] at hw2
      rw [← Option.some.inj hw2, hwrun] at hwstop
      exact WorkerPhase.noConfusion hwstop
    · intro i w w' hw hw' hwstop
      have hw2 : s.workers[i]? = some w' := hw'
      rw [hw] at hw2
      rw [← Option.some.inj hw2]
      exact hwstop
    · intro i ev h
      exact PoolLabel.noConfusion h

/-- C5 witness: in the one-worker cancelled pipeline, the stop step exists
(enabled by the fired cancellation), and applying the theorem to it shows
the transition was justified by the cancellation signal. -/
theorem worker_stop_transition_witness :
    (cancelledPool.cancelled = true ∨
      (cancelledPool.closed = true ∧ cancelledPool.queue = [])) ∧
    PoolStep gormCreateClick (.stop 0) cancelledPool
      { cancelledPool with
        workers := cancelledPool.workers.set 0 { phase := .stopped, holding := none } } := by
  have hstep : PoolStep gormCreateClick (.stop 0) cancelledPool cancelledPoolStopped :=
    @PoolStep.stopCancel gormCreateClick cancelledPool 0
      { phase := .running, holding := none } rfl rfl rfl rfl
  have h := worker_stop_transition gormCreateClick (.stop 0)
    cancelledPool cancelledPoolStopped hstep
  exact ⟨h.1 0 { phase := .running, holding := none }
      { phase := .stopped, holding := none } rfl rfl rfl rfl,
    h.2.2.2 0 { phase := .running, holding := none } rfl rfl rfl (Or.inl rfl)⟩

/-- C6: when the `createClick` call for a dequeued event fails, the worker's
loop body leaves the click store unchanged (the error is swallowed — it
cannot escape, the result type has no error channel) and drops the event;
across the corresponding pool step the worker is still `Running` and back at
its `select` with empty hands, the queue is not re-fed with the event, and if
another event is queued the worker can immediately dequeue it — one failed
write stalls nothing. -/
theorem worker_persist_failure_isolated (cc : ClickStore → Click → Except GoError ClickStore)
    (cs : ClickStore) (ev : ClickEvent) (e : GoError)
    (hfail : cc cs (clickOfEvent ev) = .error e) :
    processEvent cc cs ev = cs ∧
    (∀ (s s' : PoolState) (i : Nat), PoolStep cc (.persist i ev) s s' →
      ∃ w, s.workers[i]? = some w ∧ w.phase = .running ∧ w.holding = some ev ∧
        s'.workers[i]? = some { w with holding := none } ∧
        s'.queue = s.queue ∧
        s'.store = processEvent cc s.store ev ∧
        (s.store = cs → s'.store = cs) ∧
        (∀ ev2 rest, s.queue = ev2 :: rest →
          PoolStep cc (.dequeue i ev2) s'
            { s' with workers := s'.workers.set i { w with holding := some ev2 },
                      queue := rest })) := by
  have h1 : processEvent cc cs ev = cs := by
    simp only [processEvent, hfail]
  refine ⟨h1, ?_⟩
  intro s s' i hstep
  cases hstep with
  | persist hj hrun hhold =>
    rename_i w
    refine ⟨w, hj, hrun, hhold, getElem?_set_some _ hj, rfl, rfl, ?_, ?_⟩
    · intro hcs
      show processEvent cc s.store ev = cs
      rw [hcs, h1]
    · intro ev2 rest hq
      refine @PoolStep.dequeue cc _ i { w with holding := none } ev2 rest ?_ ?_ ?_ ?_
      · exact getElem?_set_some _ hj
      · exact hrun
      · rfl
      · exact hq

/-- C6 witness: against the always-failing click store, processing `evA`
leaves the empty clicks table empty, and across the concrete pool step the
worker remains running with `evB` still dequeueable. -/
theorem worker_persist_failure_isolated_witness :
    processEvent failingCreateClick { clicks := [], nextId := 1 } evA =
      { clicks := [], nextId := 1 } ∧
    ∃ w, poolHoldingA.workers[0]? = some w ∧ w.phase = .running ∧
      w.holding = some evA ∧
      poolHoldingADone.workers[0]? = some { w with holding := none } ∧
      poolHoldingADone.queue = poolHoldingA.queue ∧
      poolHoldingADone.store = processEvent failingCreateClick poolHoldingA.store evA ∧
      (poolHoldingA.store = { clicks := [], nextId := 1 } →
        poolHoldingADone.store = { clicks := [], nextId := 1 }) ∧
      (∀ ev2 rest, poolHoldingA.queue = ev2 :: rest →
        PoolStep failingCreateClick (.dequeue 0 ev2) poolHoldingADone
          { poolHoldingADone with
            workers := poolHoldingADone.workers.set 0 { w with holding := some ev2 },
            queue := rest }) := by
  have h := worker_persist_failure_isolated failingCreateClick
    { clicks := [], nextId := 1 } evA
    (.wrapped "erreur lors de la création du clic" (.dbError "database is locked")) rfl
  refine ⟨h.1, ?_⟩
  exact h.2 poolHoldingA poolHoldingADone 0
    (@PoolStep.persist failingCreateClick poolHoldingA 0
      { phase := .running, holding := some evA } evA rfl rfl rfl)

/-- C8 witness: a store holding one click for link 1 reports zero clicks for
link 42, successfully. -/
theorem countClicks_zero_ok_witness :
    CountClicksByLinkID none
      { clicks := [{ id := 1, linkID := 1, timestamp := 10, userAgent := "ua-A",
                     ipAddress := "1.1.1.1" }], nextId := 2 } 42 = .ok 0 :=
  countClicks_zero_ok _ 42 (by decide)

/-- Transport a producer-free run along an equality of start states. -/
theorem reach_of_eq {cc : ClickStore → Click → Except GoError ClickStore}
    {a b c : PoolState} (h : a = b) (hr : PoolReach cc b c) : PoolReach cc a c :=
  h ▸ hr

/-- One producer-free pipeline step (with the healthy GORM click store)
neither creates nor destroys click data: it only moves it between queue,
workers' hands, and the clicks table. -/
theorem poolContents_step (l : PoolLabel) (s s' : PoolState)
    (hstep : PoolStep gormCreateClick l s s') (hl : ∀ ev, l ≠ .enqueue ev) :
    poolContents s' = poolContents s := by
  cases hstep with
  | @dequeue _ j wj ev0 rest0 hj hrun hhold hq =>
    have hsum := sum_map_set heldClicks s.workers j wj { wj with holding := some ev0 } hj
    have hw0 : heldClicks wj = 0 := by simp [heldClicks, hhold]
    have hw1 : heldClicks { wj with holding := some ev0 } = {projEvent ev0} := by
      simp [heldClicks]
    rw [hw0, hw1, add_zero] at hsum
    dsimp only [poolContents]
    rw [hq, List.map_cons, ← Multiset.cons_coe, ← Multiset.singleton_add, hsum]
    abel
  | @persist _ j wj ev0 hj hrun hhold =>
    have hsum := sum_map_set heldClicks s.workers j wj { wj with holding := none } hj
    have hw0 : heldClicks wj = {projEvent ev0} := by simp [heldClicks, hhold]
    have hw1 : heldClicks { wj with holding := none } = 0 := by simp [heldClicks]
    rw [hw0, hw1, add_zero] at hsum
    dsimp only [poolContents, processEvent, gormCreateClick]
    rw [List.map_append, ← Multiset.coe_add]
    have hproj : (List.map projClick [{ clickOfEvent ev0 with id := s.store.nextId }] :
        List (Nat × Nat × String × String)) = [projEvent ev0] := rfl
    rw [hproj, Multiset.coe_singleton, ← hsum]
    abel
  | @stopCancel _ j wj hj hrun hhold hc =>
    have hsum := sum_map_set heldClicks s.workers j wj { wj with phase := .stopped } hj
    have hw1 : heldClicks { wj with phase := .stopped } = heldClicks wj := rfl
    rw [hw1] at hsum
    have hsum2 := add_right_cancel hsum
    dsimp only [poolContents]
    rw [hsum2]
  | @stopClosed _ j wj hj hrun hhold hcl hq =>
    have hsum := sum_map_set heldClicks s.workers j wj { wj with phase := .stopped } hj
    have hw1 : heldClicks { wj with phase := .stopped } = heldClicks wj := rfl
    rw [hw1] at hsum
    have hsum2 := add_right_cancel hsum
    dsimp only [poolContents]
    rw [hsum2]
  | @enqueue _ ev0 hcl hcap =>
    exact absurd rfl (hl ev0)
  | cancel => rfl
  | close => rfl

/-- The conservation of click data extends to every producer-free run. -/
theorem poolContents_reach (s s' : PoolState)
    (h : PoolReach gormCreateClick s s') : poolContents s' = poolContents s := by
  induction h with
  | refl => rfl
  | tail hab hstep ih =>
    obtain ⟨l, hs, hl⟩ := hstep
    rw [poolContents_step l _ _ hs hl, ih]

/-- Worker 0 alone can drain any queued backlog: from any pre-loaded queue
there is a producer-free run (dequeue, persist, dequeue, persist, ...) that
empties the queue, persisting one click per event. -/
theorem drain_exists (n C : Nat) :
    ∀ (queue : List ClickEvent) (cs : ClickStore),
      ∃ cs' : ClickStore, PoolReach gormCreateClick
        { workers := List.replicate (n + 1) idleWorker, queue := queue, capacity := C,
          closed := false, cancelled := false, store := cs }
        { workers := List.replicate (n + 1) idleWorker, queue := [], capacity := C,
          closed := false, cancelled := false, store := cs' } ∧
      cs'.clicks.length = cs.clicks.length + queue.length
  | [], cs => ⟨cs, Relation.ReflTransGen.refl, by simp⟩
  | ev :: rest, cs => by
    obtain ⟨cs', hreach, hlen⟩ := drain_exists n C rest (processEvent gormCreateClick cs ev)
    have h0 : (List.replicate (n + 1) idleWorker)[0]? = some idleWorker := by
      rw [List.replicate_succ]
      simp
    have hW : ((List.replicate (n + 1) idleWorker).set 0 (holdingWorker ev)).set 0
          idleWorker = List.replicate (n + 1) idleWorker := by
      rw [List.set_set]
      exact set_getElem?_self h0
    refine ⟨cs', ?_, ?_⟩
    · refine Relation.ReflTransGen.head
        ⟨.dequeue 0 ev, @PoolStep.dequeue gormCreateClick _ 0 idleWorker ev rest ?_ ?_ ?_ ?_,
          fun _ h => PoolLabel.noConfusion h⟩ ?_
      · exact h0
      · rfl
      · rfl
      · rfl
      refine Relation.ReflTransGen.head
        ⟨.persist 0 ev,
          @PoolStep.persist gormCreateClick _ 0 (holdingWorker ev) ev ?_ ?_ ?_,
          fun _ h => PoolLabel.noConfusion h⟩ ?_
      · exact getElem?_set_some _ h0
      · rfl
      · rfl
      nth_rewrite 1 [← hW] at hreach
      exact hreach
    · rw [hlen]
      have hone : (processEvent gormCreateClick cs ev).clicks.length =
          cs.clicks.length + 1 := by
        simp [processEvent, gormCreateClick]
      rw [hone]
      simp only [List.length_cons]
      omega

/-- C7: enqueueing M events (M within capacity) before any worker runs and
then starting N ≥ 1 workers with the healthy GORM click store: all M events
are accepted into the queue; every producer-free run reaching a quiescent
state (queue drained, no worker mid-iteration) has persisted exactly the
M events — the clicks table is, as a multiset, exactly the events' click
data (no duplicate, no loss) and holds exactly M rows; and such a quiescent
run exists. All of this holds independently of N. -/
theorem pool_persists_exactly_once (N C : Nat) (events : List ClickEvent)
    (hN : 1 ≤ N) (hM : events.length ≤ C) :
    (initPool N C events).queue = events ∧
    (∀ s' : PoolState, PoolReach gormCreateClick (initPool N C events) s' →
      s'.queue = [] → (∀ w ∈ s'.workers, w.holding = none) →
      (s'.store.clicks.map projClick : Multiset (Nat × Nat × String × String)) =
        (events.map projEvent : List _) ∧
      s'.store.clicks.length = events.length) ∧
    (∃ s' : PoolState, PoolReach gormCreateClick (initPool N C events) s' ∧
      s'.queue = [] ∧ (∀ w ∈ s'.workers, w.holding = none) ∧
      s'.store.clicks.length = events.length) := by
  have hqueue : (initPool N C events).queue = events := by
    show (enqueueAll { capacity := C, buffer := [] } events).1.buffer = events
    rw [(enqueueAll_spec C events [] (by simp)).1]
    simp [List.take_of_length_le hM]
  have hinitContents : poolContents (initPool N C events) =
      (events.map projEvent : List _) := by
    rw [poolContents, hqueue]
    show (([] : List Click).map projClick : List _) +
        ((List.replicate N ({ phase := .running, holding := none } : WorkerView)).map
          heldClicks).sum + (events.map projEvent : List _) = _
    rw [List.map_replicate]
    have hz : heldClicks { phase := .running, holding := none } = 0 := rfl
    rw [hz, List.sum_replicate]
    simp
  refine ⟨hqueue, ?_, ?_⟩
  · intro s' hreach hq hhold
    have hc := poolContents_reach (initPool N C events) s' hreach
    rw [hinitContents, poolContents, hq] at hc
    have hsz : (s'.workers.map heldClicks).sum = 0 := by
      refine List.sum_eq_zero ?_
      intro x hx
      rw [List.mem_map] at hx
      obtain ⟨w, hw, rfl⟩ := hx
      simp [heldClicks, hhold w hw]
    rw [hsz] at hc
    simp only [List.map_nil, Multiset.coe_nil, add_zero] at hc
    refine ⟨hc, ?_⟩
    have hcard := congrArg Multiset.card hc
    rw [Multiset.coe_card, Multiset.coe_card, List.length_map, List.length_map] at hcard
    exact hcard
  · obtain ⟨n, rfl⟩ : ∃ n, N = n + 1 := ⟨N - 1, by omega⟩
    obtain ⟨cs', hreach, hlen⟩ := drain_exists n C events { clicks := [], nextId := 1 }
    have hinit : initPool (n + 1) C events =
        quietPool (n + 1) C events { clicks := [], nextId := 1 } := by
      simp only [initPool, quietPool, PoolState.mk.injEq, true_and, and_true]
      exact hqueue
    refine ⟨quietPool (n + 1) C [] cs', ?_, rfl, ?_, ?_⟩
    · rw [hinit]
      exact hreach
    · intro w hw
      simp only [quietPool] at hw
      rw [(List.mem_replicate.mp hw).2]
      rfl
    · simpa [quietPool] using hlen

/-- C7 witness: one worker, capacity 2, events A and B pre-enqueued — both
accepted, and a quiescent run persisting exactly 2 clicks exists. -/
theorem pool_persists_exactly_once_witness :
    (initPool 1 2 [evA, evB]).queue = [evA, evB] ∧
    ∃ s' : PoolState, PoolReach gormCreateClick (initPool 1 2 [evA, evB]) s' ∧
      s'.queue = [] ∧ (∀ w ∈ s'.workers, w.holding = none) ∧
      s'.store.clicks.length = 2 := by
  have h := pool_persists_exactly_once 1 2 [evA, evB] (by decide) (by decide)
  exact ⟨h.1, h.2.2⟩

end UrlShortener
